import Mathlib

/-!
Shallow embedding of `src/handler.py`: a single-job orchestration client that
submits a ComfyUI workflow, waits for completion on a websocket push channel,
and collects the produced image artifacts.

Pure data is modelled directly; the network and filesystem side effects are
modelled with explicit oracles (an `Env` record) and an event trace.
Bytes are `Nat` values with explicit `< 256` bounds where they matter.
-/

/-! ### Base64 (the `base64.b64decode` / `base64.b64encode` calls of the source,
per RFC 4648, the encoding Python's `base64` module implements). -/

/-- The base64 alphabet: index (0..63) to character. -/
def b64char (n : Nat) : Char :=
  if n < 26 then Char.ofNat (65 + n)
  else if n < 52 then Char.ofNat (97 + (n - 26))
  else if n < 62 then Char.ofNat (48 + (n - 52))
  else if n = 62 then '+'
  else '/'

/-- The base64 alphabet: character to index (0 on non-alphabet characters). -/
def b64index (c : Char) : Nat :=
  if 65 ≤ c.toNat ∧ c.toNat ≤ 90 then c.toNat - 65
  else if 97 ≤ c.toNat ∧ c.toNat ≤ 122 then c.toNat - 97 + 26
  else if 48 ≤ c.toNat ∧ c.toNat ≤ 57 then c.toNat - 48 + 52
  else if c = '+' then 62
  else if c = '/' then 63
  else 0

/-- Base64-encode a byte list (groups of 3 bytes to 4 characters, `=`-padded). -/
def b64encode : List Nat → List Char
  | [] => []
  | [a] => [b64char (a / 4), b64char (a % 4 * 16), '=', '=']
  | [a, b] => [b64char (a / 4), b64char (a % 4 * 16 + b / 16), b64char (b % 16 * 4), '=']
  | a :: b :: c :: rest =>
      b64char (a / 4) :: b64char (a % 4 * 16 + b / 16) ::
      b64char (b % 16 * 4 + c / 64) :: b64char (c % 64) :: b64encode rest

/-- Base64-decode a character list (4-character groups, `=`-padding at the end). -/
def b64decode : List Char → List Nat
  | c1 :: c2 :: c3 :: c4 :: rest =>
      if c3 = '=' then [b64index c1 * 4 + b64index c2 / 16]
      else if c4 = '=' then
        [b64index c1 * 4 + b64index c2 / 16,
         b64index c2 % 16 * 16 + b64index c3 / 4]
      else
        (b64index c1 * 4 + b64index c2 / 16) ::
        (b64index c2 % 16 * 16 + b64index c3 / 4) ::
        (b64index c3 % 4 * 64 + b64index c4) ::
        b64decode rest
  | _ => []

/-- `base64.b64decode` applied to a Python `str`. -/
def b64decodeStr (s : String) : List Nat := b64decode s.data

/-- `base64.b64encode(...).decode("utf-8")`: bytes to a Python `str`. -/
def b64encodeStr (bs : List Nat) : String := String.mk (b64encode bs)

theorem b64index_b64char : ∀ n, n < 64 → b64index (b64char n) = n := by
  decide

theorem b64char_ne_pad : ∀ n, n < 64 → b64char n ≠ '=' := by
  decide

theorem b64index_lt (c : Char) : b64index c < 64 := by
  unfold b64index
  split_ifs <;> omega

theorem b64decode_nil : b64decode [] = [] := rfl

theorem b64decode_pad2 (c1 c2 : Char) :
    b64decode [c1, c2, '=', '='] = [b64index c1 * 4 + b64index c2 / 16] := by
  simp [b64decode]

theorem b64decode_pad1 (c1 c2 c3 : Char) (h3 : c3 ≠ '=') :
    b64decode [c1, c2, c3, '='] =
      [b64index c1 * 4 + b64index c2 / 16,
       b64index c2 % 16 * 16 + b64index c3 / 4] := by
  simp [b64decode, h3]

theorem b64decode_group (c1 c2 c3 c4 : Char) (rest : List Char)
    (h3 : c3 ≠ '=') (h4 : c4 ≠ '=') :
    b64decode (c1 :: c2 :: c3 :: c4 :: rest) =
      (b64index c1 * 4 + b64index c2 / 16) ::
      (b64index c2 % 16 * 16 + b64index c3 / 4) ::
      (b64index c3 % 4 * 64 + b64index c4) ::
      b64decode rest := by
  simp [b64decode, h3, h4]

/-- Decoding the encoding of a byte list is the identity. -/
theorem b64decode_b64encode : ∀ (bs : List Nat), (∀ x ∈ bs, x < 256) →
    b64decode (b64encode bs) = bs
  | [], _ => rfl
  | [a], h => by
      have ha : a < 256 := h a (by simp)
      show b64decode [b64char (a / 4), b64char (a % 4 * 16), '=', '='] = [a]
      rw [b64decode_pad2, b64index_b64char (a / 4) (by omega),
        b64index_b64char (a % 4 * 16) (by omega)]
      simp only [List.cons.injEq, and_true]
      omega
  | [a, b], h => by
      have ha : a < 256 := h a (by simp)
      have hb : b < 256 := h b (by simp)
      show b64decode [b64char (a / 4), b64char (a % 4 * 16 + b / 16),
        b64char (b % 16 * 4), '='] = [a, b]
      rw [b64decode_pad1 _ _ _ (b64char_ne_pad (b % 16 * 4) (by omega)),
        b64index_b64char (a / 4) (by omega),
        b64index_b64char (a % 4 * 16 + b / 16) (by omega),
        b64index_b64char (b % 16 * 4) (by omega)]
      simp only [List.cons.injEq, and_true]
      constructor <;> omega
  | a :: b :: c :: rest, h => by
      have ha : a < 256 := h a (by simp)
      have hb : b < 256 := h b (by simp)
      have hc : c < 256 := h c (by simp)
      have ih := b64decode_b64encode rest (fun x hx => h x (by simp [hx]))
      show b64decode (b64char (a / 4) :: b64char (a % 4 * 16 + b / 16) ::
        b64char (b % 16 * 4 + c / 64) :: b64char (c % 64) :: b64encode rest)
        = a :: b :: c :: rest
      rw [b64decode_group _ _ _ _ _ (b64char_ne_pad (b % 16 * 4 + c / 64) (by omega))
          (b64char_ne_pad (c % 64) (by omega)),
        b64index_b64char (a / 4) (by omega),
        b64index_b64char (a % 4 * 16 + b / 16) (by omega),
        b64index_b64char (b % 16 * 4 + c / 64) (by omega),
        b64index_b64char (c % 64) (by omega)]
      simp only [List.cons.injEq]
      refine ⟨by omega, by omega, by omega, ih⟩

/-- Every byte produced by `b64decode` is below 256. -/
theorem b64decode_lt : ∀ (cs : List Char), ∀ x ∈ b64decode cs, x < 256
  | [] => by simp [b64decode]
  | [_] => by simp [b64decode]
  | [_, _] => by simp [b64decode]
  | [_, _, _] => by simp [b64decode]
  | c1 :: c2 :: c3 :: c4 :: rest => by
      intro x hx
      have h1 := b64index_lt c1
      have h2 := b64index_lt c2
      have h3 := b64index_lt c3
      have h4 := b64index_lt c4
      by_cases e3 : c3 = '='
      · subst e3
        have hd : b64decode (c1 :: c2 :: '=' :: c4 :: rest) =
            [b64index c1 * 4 + b64index c2 / 16] := by
          simp [b64decode]
        rw [hd] at hx
        simp at hx
        omega
      · by_cases e4 : c4 = '='
        · subst e4
          have hd : b64decode (c1 :: c2 :: c3 :: '=' :: rest) =
              [b64index c1 * 4 + b64index c2 / 16,
               b64index c2 % 16 * 16 + b64index c3 / 4] := by
            simp [b64decode, e3]
          rw [hd] at hx
          simp at hx
          rcases hx with h | h <;> omega
        · rw [b64decode_group _ _ _ _ _ e3 e4] at hx
          simp only [List.mem_cons] at hx
          rcases hx with h | h | h | h
          · omega
          · omega
          · omega
          · exact b64decode_lt rest x h

theorem b64decodeStr_lt (s : String) : ∀ x ∈ b64decodeStr s, x < 256 :=
  b64decode_lt s.data

/-- String-level round trip used by the handler's output path. -/
theorem b64decodeStr_b64encodeStr (bs : List Nat) (h : ∀ x ∈ bs, x < 256) :
    b64decodeStr (b64encodeStr bs) = bs :=
  b64decode_b64encode bs h

/-! ### Push-channel messages and `wait_for_execution` (src/handler.py lines 47-54).

A received message is either binary (`ws.recv` returning bytes) or textual; a
textual message is modelled already parsed as the event envelope of the push
channel: a `type` tag and a `data` payload with `node : string | null` and
`prompt_id : string` (the only fields the source reads). -/

inductive WsMsg where
  | binary (payload : List Nat)
  | text (msgType : String) (node : Option String) (prompt_id : String)
  deriving DecidableEq

/-- The terminal-completion test of line 53: an `"executing"` message with
`node == null` and `prompt_id` equal to the tracked identifier. -/
def isTerminalMsg (prompt_id : String) : WsMsg → Bool
  | .binary _ => false
  | .text t node pid => decide (t = "executing" ∧ node = none ∧ pid = prompt_id)

/-- The receive loop of `wait_for_execution`, run over the channel's message
sequence; returns the index of the message on which the loop returns, or
`none` when the sequence is exhausted without a terminal signal (the channel
closed first). -/
def wait_for_execution (prompt_id : String) : List WsMsg → Option Nat
  | [] => none
  | msg :: rest =>
    match msg with
    | .binary _ => (wait_for_execution prompt_id rest).map (· + 1)
    | .text t node pid =>
      if t = "executing" then
        if node = none ∧ pid = prompt_id then some 0
        else (wait_for_execution prompt_id rest).map (· + 1)
      else (wait_for_execution prompt_id rest).map (· + 1)

theorem wait_cons (prompt_id : String) (m : WsMsg) (rest : List WsMsg) :
    wait_for_execution prompt_id (m :: rest) =
      if isTerminalMsg prompt_id m = true then some 0
      else (wait_for_execution prompt_id rest).map (· + 1) := by
  cases m with
  | binary b => simp [wait_for_execution, isTerminalMsg]
  | text t node pid =>
    by_cases h1 : t = "executing"
    · by_cases h2 : node = none ∧ pid = prompt_id
      · simp [wait_for_execution, isTerminalMsg, h1, h2]
      · simp [wait_for_execution, isTerminalMsg, h1, h2]
    · simp [wait_for_execution, isTerminalMsg, h1]

theorem wait_spec (prompt_id : String) : ∀ (msgs : List WsMsg) (i : Nat),
    wait_for_execution prompt_id msgs = some i ↔
      (i < msgs.length ∧
       isTerminalMsg prompt_id (msgs.getD i (.binary [])) = true ∧
       ∀ j, j < i → isTerminalMsg prompt_id (msgs.getD j (.binary [])) = false)
  | [], i => by simp [wait_for_execution]
  | m :: rest, i => by
    rw [wait_cons]
    by_cases hm : isTerminalMsg prompt_id m = true
    · rw [if_pos hm]
      constructor
      · intro h
        have hi : i = 0 := by
          have := Option.some.inj h
          omega
        subst hi
        exact ⟨by simp, by simpa using hm, by omega⟩
      · rintro ⟨_, _, hfirst⟩
        rcases Nat.eq_zero_or_pos i with hi | hi
        · simp [hi]
        · have := hfirst 0 hi
          simp at this
          exact absurd hm (by simp [this])
    · rw [if_neg hm]
      cases i with
      | zero =>
        constructor
        · intro h
          rcases Option.map_eq_some'.mp h with ⟨a, _, ha⟩
          omega
        · rintro ⟨_, hterm, _⟩
          simp at hterm
          exact absurd hm (by simp [hterm])
      | succ i' =>
        constructor
        · intro h
          rcases Option.map_eq_some'.mp h with ⟨a, ha, hai⟩
          have hai' : a = i' := by omega
          rw [hai'] at ha
          rcases (wait_spec prompt_id rest i').mp ha with ⟨hl, hterm, hfirst⟩
          refine ⟨by simpa using hl, by simpa using hterm, ?_⟩
          intro j hj
          cases j with
          | zero => simpa using (Bool.not_eq_true _).mp hm
          | succ j' => simpa using hfirst j' (by omega)
        · rintro ⟨hl, hterm, hfirst⟩
          have hr : wait_for_execution prompt_id rest = some i' := by
            refine (wait_spec prompt_id rest i').mpr ⟨by simpa using hl, by simpa using hterm, ?_⟩
            intro j hj
            simpa using hfirst (j + 1) (by omega)
          rw [hr]
          rfl

theorem wait_none (prompt_id : String) : ∀ (msgs : List WsMsg),
    wait_for_execution prompt_id msgs = none ↔
      ∀ j, j < msgs.length → isTerminalMsg prompt_id (msgs.getD j (.binary [])) = false
  | [] => by simp [wait_for_execution]
  | m :: rest => by
    rw [wait_cons]
    by_cases hm : isTerminalMsg prompt_id m = true
    · rw [if_pos hm]
      simp only [List.length_cons]
      constructor
      · intro h
        exact absurd h (by simp)
      · intro h
        have := h 0 (by omega)
        simp at this
        exact absurd hm (by simp [this])
    · rw [if_neg hm]
      simp only [Option.map_eq_none', List.length_cons]
      rw [wait_none prompt_id rest]
      constructor
      · intro h j hj
        cases j with
        | zero => simpa using (Bool.not_eq_true _).mp hm
        | succ j' => simpa using h j' (by omega)
      · intro h j hj
        simpa using h (j + 1) (by omega)

/-! ### Data model: history records, artifacts, input images, filesystem. -/

/-- One artifact reference of a history record: the `filename`, `subfolder`
and `type` keys the handler reads (src/handler.py lines 124-128). -/
structure ImageRef where
  filename : String
  subfolder : String
  ftype : String
  deriving DecidableEq

/-- One value of `history["outputs"]`: `images` is `some refs` when the node's
descriptor has an `"images"` key and `none` when it does not. -/
structure OutputNode where
  images : Option (List ImageRef)
  deriving DecidableEq

/-- The history record of one job: the values of its `"outputs"` mapping, in
iteration order. -/
structure HistoryRecord where
  outputs : List OutputNode
  deriving DecidableEq

/-- All artifact references of a record, in the iteration order of the
handler's nested collection loops (nodes without an `"images"` key
contribute nothing). -/
def allRefs : List OutputNode → List ImageRef
  | [] => []
  | n :: rest => (match n.images with | none => [] | some l => l) ++ allRefs rest

/-- One entry of the caller-supplied `"images"` list: a name and a base64
payload. -/
structure InputImage where
  name : String
  image : String
  deriving DecidableEq

/-- One entry of the returned `"images"` list (src/handler.py lines 130-133). -/
structure OutputImage where
  name : String
  data : String
  deriving DecidableEq

/-- The filesystem, as a path-keyed association list; a write shadows earlier
entries for the same path (overwrite). -/
def Fs : Type := List (String × List Nat)

instance : DecidableEq Fs := by
  unfold Fs
  infer_instance

def fsWrite (fs : Fs) (p : String) (bs : List Nat) : Fs := (p, bs) :: fs

def fsLookup (fs : Fs) (p : String) : Option (List Nat) :=
  (List.find? (fun e => e.1 = p) fs).map (fun e => e.2)

theorem fsLookup_fsWrite (fs : Fs) (p q : String) (bs : List Nat) :
    fsLookup (fsWrite fs p bs) q = if p = q then some bs else fsLookup fs q := by
  by_cases h : p = q <;> simp [fsLookup, fsWrite, List.find?, h]

/-! ### `os.path.join` and POSIX path resolution (for the input-image save
path `os.path.join(INPUT_DIR, name)`, src/handler.py lines 18 and 89). -/

def strStartsSlash (s : String) : Bool :=
  match s.data with
  | '/' :: _ => true
  | _ => false

def strEndsSlash (s : String) : Bool :=
  match s.data.getLast? with
  | some '/' => true
  | _ => false

/-- Python `os.path.join` on POSIX, two arguments: an absolute second
component replaces the first; otherwise the parts are joined with `/`
inserted unless the first already ends in `/`. -/
def osPathJoin (a b : String) : String :=
  if strStartsSlash b then b
  else if a = "" ∨ strEndsSlash a then a ++ b
  else a ++ "/" ++ b

/-- `INPUT_DIR` of src/handler.py line 18. -/
def INPUT_DIR : String := "/input"

/-- The path an input image is persisted to: `os.path.join(INPUT_DIR, name)`,
the caller-supplied name used verbatim (src/handler.py line 89). -/
def savePath (name : String) : String := osPathJoin INPUT_DIR name

/-- Split a path into `/`-separated components (as character lists). -/
def splitSlash : List Char → List Char → List (List Char)
  | cur, [] => [cur.reverse]
  | cur, c :: rest =>
    if c = '/' then cur.reverse :: splitSlash [] rest
    else splitSlash (c :: cur) rest

/-- The non-empty, non-`.` segments of a path. -/
def pathSegs (p : String) : List (List Char) :=
  (splitSlash [] p.data).filter (fun seg => !(seg.isEmpty || seg == ['.']))

/-- POSIX resolution of `..` segments of an absolute path (at the root, `..`
stays at the root). -/
def resolveSegs : List (List Char) → List (List Char) → List (List Char)
  | acc, [] => acc.reverse
  | acc, seg :: rest =>
    if seg == ['.', '.'] then resolveSegs acc.tail rest
    else resolveSegs (seg :: acc) rest

/-- The resolved segment list of an absolute path. -/
def resolveAbs (p : String) : List (List Char) := resolveSegs [] (pathSegs p)

/-- Whether the location an absolute path resolves to lies under a directory. -/
def pathUnder (dir p : String) : Bool :=
  (resolveAbs dir).isPrefixOf (resolveAbs p)

/-! ### Events: the observable actions of one handler invocation, in order. -/

inductive Event where
  /-- A decoded input image written to a path (lines 86-92). -/
  | saveImage (path : String) (bytes : List Nat)
  /-- One liveness request of the readiness loop (line 97), 0-indexed. -/
  | probeAttempt (k : Nat)
  /-- `time.sleep(1)` after a failed liveness request (line 100). -/
  | sleep
  /-- The websocket connection opened, scoped by `clientId` (lines 105-107). -/
  | wsConnect (clientId : String)
  /-- The workflow posted; the service returned this `prompt_id` (line 110). -/
  | submit (prompt_id : String)
  /-- `wait_for_execution` returned for this `prompt_id` (line 113). -/
  | waitDone (prompt_id : String)
  /-- The history record requested for this `prompt_id` (line 116). -/
  | historyFetch (prompt_id : String)
  /-- One artifact retrieval (`get_image`, lines 125-129). -/
  | fetchImage (filename subfolder ftype : String)
  deriving DecidableEq

def isSaveEv : Event → Bool
  | .saveImage _ _ => true
  | _ => false

def isProbeEv : Event → Bool
  | .probeAttempt _ => true
  | _ => false

def isConnectEv : Event → Bool
  | .wsConnect _ => true
  | _ => false

def isSubmitEv : Event → Bool
  | .submit _ => true
  | _ => false

def isFetchEv : Event → Bool
  | .fetchImage _ _ _ => true
  | _ => false

/-- The job identifier an event carries, when it carries one. -/
def eventPid : Event → Option String
  | .submit p => some p
  | .waitDone p => some p
  | .historyFetch p => some p
  | _ => none

/-! ### The readiness probe (src/handler.py lines 95-102): `for _ in
range(120): try urlopen; break; except: sleep(1)` with a `for`/`else` raise.
`ok k` tells whether attempt `k` (0-indexed) gets a response. -/

def probeLoop (ok : Nat → Bool) : Nat → Nat → Bool × List Event
  | _, 0 => (false, [])
  | k, fuel + 1 =>
    if ok k then (true, [.probeAttempt k])
    else
      ((probeLoop ok (k + 1) fuel).1,
        .probeAttempt k :: .sleep :: (probeLoop ok (k + 1) fuel).2)

def attemptsOf (es : List Event) : Nat := (es.filter isProbeEv).length

def isSleepEv : Event → Bool
  | .sleep => true
  | _ => false

def sleepsOf (es : List Event) : Nat := (es.filter isSleepEv).length

theorem probeLoop_success (ok : Nat → Bool) : ∀ (m k fuel : Nat), m < fuel →
    ok (k + m) = true → (∀ j, j < m → ok (k + j) = false) →
    (probeLoop ok k fuel).1 = true ∧
    attemptsOf (probeLoop ok k fuel).2 = m + 1 ∧
    sleepsOf (probeLoop ok k fuel).2 = m
  | 0, k, fuel, hm, hk, _ => by
    cases fuel with
    | zero => omega
    | succ f =>
      simp only [Nat.add_zero] at hk
      simp [probeLoop, hk, attemptsOf, sleepsOf, isProbeEv, isSleepEv]
  | m + 1, k, fuel, hm, hk, hmin => by
    cases fuel with
    | zero => omega
    | succ f =>
      have h0 : ok k = false := by simpa using hmin 0 (by omega)
      have ih := probeLoop_success ok m (k + 1) f (by omega)
        (by rw [show k + 1 + m = k + (m + 1) by omega]; exact hk)
        (fun j hj => by rw [show k + 1 + j = k + (j + 1) by omega]; exact hmin (j + 1) (by omega))
      simp only [probeLoop, h0, if_neg (by simp : ¬ (false = true))]
      refine ⟨ih.1, ?_, ?_⟩
      · simp only [attemptsOf, List.filter, isProbeEv]
        simpa [attemptsOf] using ih.2.1
      · simp only [sleepsOf, List.filter, isSleepEv]
        simpa [sleepsOf] using ih.2.2

theorem probeLoop_fail (ok : Nat → Bool) : ∀ (fuel k : Nat),
    (∀ j, j < fuel → ok (k + j) = false) →
    (probeLoop ok k fuel).1 = false ∧
    attemptsOf (probeLoop ok k fuel).2 = fuel ∧
    sleepsOf (probeLoop ok k fuel).2 = fuel
  | 0, k, _ => by simp [probeLoop, attemptsOf, sleepsOf]
  | fuel + 1, k, h => by
    have h0 : ok k = false := by simpa using h 0 (by omega)
    have ih := probeLoop_fail ok fuel (k + 1)
      (fun j hj => by rw [show k + 1 + j = k + (j + 1) by omega]; exact h (j + 1) (by omega))
    simp only [probeLoop, h0, if_neg (by simp : ¬ (false = true))]
    refine ⟨ih.1, ?_, ?_⟩
    · simp only [attemptsOf, List.filter, isProbeEv]
      simpa [attemptsOf] using ih.2.1
    · simp only [sleepsOf, List.filter, isSleepEv]
      simpa [sleepsOf] using ih.2.2

theorem probeLoop_events (ok : Nat → Bool) : ∀ (fuel k : Nat),
    ∀ e ∈ (probeLoop ok k fuel).2, (∃ j, e = .probeAttempt j) ∨ e = .sleep
  | 0, k => by simp [probeLoop]
  | fuel + 1, k => by
    intro e he
    by_cases h0 : ok k
    · simp only [probeLoop, h0, if_pos rfl] at he
      simp at he
      exact Or.inl ⟨k, he⟩
    · simp only [probeLoop, h0] at he
      simp only [Bool.false_eq_true, if_false, List.mem_cons] at he
      rcases he with rfl | rfl | he
      · exact Or.inl ⟨k, rfl⟩
      · exact Or.inr rfl
      · exact probeLoop_events ok fuel (k + 1) e he

theorem probeLoop_head (ok : Nat → Bool) (k fuel : Nat) :
    ∃ t, (probeLoop ok k (fuel + 1)).2 = Event.probeAttempt k :: t := by
  by_cases h0 : ok k
  · exact ⟨[], by simp [probeLoop, h0]⟩
  · exact ⟨Event.sleep :: (probeLoop ok (k + 1) fuel).2, by simp [probeLoop, h0]⟩

/-! ### Submission (src/handler.py lines 35-44): the workflow and client id are
posted; the response either carries a `prompt_id` field, returned verbatim, or
the call fails (request error, malformed response, or missing field). -/

structure QueueResponse where
  prompt_id : Option String
  deriving DecidableEq

/-- `queue_prompt`: returns the `prompt_id` field of the service response,
unvalidated; errors when the field is absent (or the request failed). -/
def queue_prompt (res : QueueResponse) : Except Unit String :=
  match res.prompt_id with
  | some s => .ok s
  | none => .error ()

/-! ### Artifact collection (src/handler.py lines 119-133): for each node of
`history["outputs"]` that has an `"images"` key, fetch each reference via
`get_image` and append `{name, base64 data}`; a fetch failure raises,
aborting the whole collection. `g` is the `get_image` oracle: `none` models a
raised retrieval error. -/

def collectLoop (g : String → String → String → Option (List Nat)) :
    List ImageRef → Option (List OutputImage) × List Event
  | [] => (some [], [])
  | r :: rest =>
    match g r.filename r.subfolder r.ftype with
    | none => (none, [.fetchImage r.filename r.subfolder r.ftype])
    | some raw =>
      ((collectLoop g rest).1.map (fun l => ⟨r.filename, b64encodeStr raw⟩ :: l),
       .fetchImage r.filename r.subfolder r.ftype :: (collectLoop g rest).2)

def collectNodes (g : String → String → String → Option (List Nat)) :
    List OutputNode → Option (List OutputImage) × List Event
  | [] => (some [], [])
  | n :: rest =>
    match n.images with
    | none => collectNodes g rest
    | some refs =>
      match collectLoop g refs with
      | (none, es) => (none, es)
      | (some l1, es) =>
        ((collectNodes g rest).1.map (fun l2 => l1 ++ l2),
         es ++ (collectNodes g rest).2)

theorem collectLoop_ok (g : String → String → String → Option (List Nat)) :
    ∀ (refs : List ImageRef),
    (∀ r ∈ refs, (g r.filename r.subfolder r.ftype).isSome = true) →
    collectLoop g refs =
      (some (refs.map fun r =>
         ⟨r.filename, b64encodeStr ((g r.filename r.subfolder r.ftype).getD [])⟩),
       refs.map fun r => .fetchImage r.filename r.subfolder r.ftype)
  | [], _ => rfl
  | r :: rest, h => by
    rcases Option.isSome_iff_exists.mp (h r (by simp)) with ⟨raw, hraw⟩
    have ih := collectLoop_ok g rest (fun x hx => h x (by simp [hx]))
    simp [collectLoop, hraw, ih]

theorem collectLoop_fail (g : String → String → String → Option (List Nat)) :
    ∀ (refs : List ImageRef) (r : ImageRef), r ∈ refs →
    g r.filename r.subfolder r.ftype = none →
    (collectLoop g refs).1 = none
  | r0 :: rest, r, hr, hnone => by
    rcases List.mem_cons.mp hr with rfl | hr'
    · simp [collectLoop, hnone]
    · cases hg : g r0.filename r0.subfolder r0.ftype with
      | none => simp [collectLoop, hg]
      | some raw =>
        have ih := collectLoop_fail g rest r hr' hnone
        simp [collectLoop, hg, ih]

theorem collectLoop_events (g : String → String → String → Option (List Nat)) :
    ∀ (refs : List ImageRef), ∀ e ∈ (collectLoop g refs).2,
    ∃ a b c, e = .fetchImage a b c
  | [] => by simp [collectLoop]
  | r :: rest => by
    intro e he
    cases hg : g r.filename r.subfolder r.ftype with
    | none =>
      simp [collectLoop, hg] at he
      exact ⟨_, _, _, he⟩
    | some raw =>
      simp only [collectLoop, hg, List.mem_cons] at he
      rcases he with rfl | he
      · exact ⟨_, _, _, rfl⟩
      · exact collectLoop_events g rest e he

theorem collectLoop_length (g : String → String → String → Option (List Nat)) :
    ∀ (refs : List ImageRef) (l : List OutputImage),
    (collectLoop g refs).1 = some l → l.length = refs.length
  | [], l, h => by
    simp [collectLoop] at h
    simp [← h]
  | r :: rest, l, h => by
    cases hg : g r.filename r.subfolder r.ftype with
    | none => simp [collectLoop, hg] at h
    | some raw =>
      simp only [collectLoop, hg, Option.map_eq_some'] at h
      rcases h with ⟨l', hl', rfl⟩
      simp [collectLoop_length g rest l' hl']

theorem collectNodes_ok (g : String → String → String → Option (List Nat)) :
    ∀ (outputs : List OutputNode),
    (∀ r ∈ allRefs outputs, (g r.filename r.subfolder r.ftype).isSome = true) →
    collectNodes g outputs =
      (some ((allRefs outputs).map fun r =>
         ⟨r.filename, b64encodeStr ((g r.filename r.subfolder r.ftype).getD [])⟩),
       (allRefs outputs).map fun r => .fetchImage r.filename r.subfolder r.ftype)
  | [], _ => rfl
  | n :: rest, h => by
    cases hn : n.images with
    | none =>
      have ih := collectNodes_ok g rest (fun x hx => h x (by simp [allRefs, hn, hx]))
      simp [collectNodes, hn, ih, allRefs]
    | some refs =>
      have hrefs : ∀ r ∈ refs, (g r.filename r.subfolder r.ftype).isSome = true :=
        fun x hx => h x (by simp [allRefs, hn, hx])
      have ih := collectNodes_ok g rest (fun x hx => h x (by simp [allRefs, hn, hx]))
      have hl := collectLoop_ok g refs hrefs
      simp [collectNodes, hn, hl, ih, allRefs]

theorem collectNodes_fail (g : String → String → String → Option (List Nat)) :
    ∀ (outputs : List OutputNode) (r : ImageRef), r ∈ allRefs outputs →
    g r.filename r.subfolder r.ftype = none →
    (collectNodes g outputs).1 = none
  | n :: rest, r, hr, hnone => by
    cases hn : n.images with
    | none =>
      simp only [allRefs, hn] at hr
      simp only [List.nil_append] at hr
      simpa [collectNodes, hn] using collectNodes_fail g rest r hr hnone
    | some refs =>
      simp only [allRefs, hn, List.mem_append] at hr
      rcases hr with hr | hr
      · have hf := collectLoop_fail g refs r hr hnone
        rcases hcl : collectLoop g refs with ⟨o, es⟩
        rw [hcl] at hf
        simp at hf
        subst hf
        simp [collectNodes, hn, hcl]
      · have ih := collectNodes_fail g rest r hr hnone
        rcases hcl : collectLoop g refs with ⟨o, es⟩
        cases o with
        | none => simp [collectNodes, hn, hcl]
        | some l1 => simp [collectNodes, hn, hcl, ih]

theorem collectNodes_length (g : String → String → String → Option (List Nat)) :
    ∀ (outputs : List OutputNode) (l : List OutputImage),
    (collectNodes g outputs).1 = some l → l.length = (allRefs outputs).length
  | [], l, h => by
    simp [collectNodes] at h
    simp [← h, allRefs]
  | n :: rest, l, h => by
    cases hn : n.images with
    | none =>
      simp only [collectNodes, hn] at h
      simpa [allRefs, hn] using collectNodes_length g rest l h
    | some refs =>
      rcases hcl : collectLoop g refs with ⟨o, es⟩
      cases o with
      | none => simp [collectNodes, hn, hcl] at h
      | some l1 =>
        simp only [collectNodes, hn, hcl, Option.map_eq_some'] at h
        rcases h with ⟨l2, hl2, rfl⟩
        have e1 : l1.length = refs.length :=
          collectLoop_length g refs l1 (by simp [hcl])
        have e2 := collectNodes_length g rest l2 hl2
        simp [allRefs, hn, e1, e2]

theorem collectNodes_events (g : String → String → String → Option (List Nat)) :
    ∀ (outputs : List OutputNode), ∀ e ∈ (collectNodes g outputs).2,
    ∃ a b c, e = .fetchImage a b c
  | [] => by simp [collectNodes]
  | n :: rest => by
    intro e he
    cases hn : n.images with
    | none =>
      simp only [collectNodes, hn] at he
      exact collectNodes_events g rest e he
    | some refs =>
      rcases hcl : collectLoop g refs with ⟨o, es⟩
      have hes : ∀ e ∈ es, ∃ a b c, e = Event.fetchImage a b c := by
        intro x hx
        exact collectLoop_events g refs x (by simp [hcl, hx])
      cases o with
      | none =>
        simp only [collectNodes, hn, hcl] at he
        exact hes e he
      | some l1 =>
        simp only [collectNodes, hn, hcl, List.mem_append] at he
        rcases he with he | he
        · exact hes e he
        · exact collectNodes_events g rest e he

/-! ### Saving input images (src/handler.py lines 86-92): for each entry, the
base64 payload is decoded and written to `os.path.join(INPUT_DIR, name)`,
truncating (overwriting) any existing file at that path. -/

def saveImages (fs : Fs) : List InputImage → Fs × List Event
  | [] => (fs, [])
  | im :: rest =>
    ((saveImages (fsWrite fs (savePath im.name) (b64decodeStr im.image)) rest).1,
     .saveImage (savePath im.name) (b64decodeStr im.image) ::
       (saveImages (fsWrite fs (savePath im.name) (b64decodeStr im.image)) rest).2)

theorem saveImages_trace : ∀ (imgs : List InputImage) (fs : Fs),
    (saveImages fs imgs).2 =
      imgs.map fun im => .saveImage (savePath im.name) (b64decodeStr im.image)
  | [], fs => rfl
  | im :: rest, fs => by
    simp [saveImages, saveImages_trace rest]

/-- After the save loop, the file at an image's save path holds the decoded
payload of the *last* input image written to that path; paths no image was
written to are untouched. -/
theorem find?_append_of_none {α : Type} (p : α → Bool) :
    ∀ (l1 l2 : List α), l1.find? p = none → (l1 ++ l2).find? p = l2.find? p
  | [], _, _ => rfl
  | a :: l1, l2, h => by
    cases hp : p a with
    | true => simp [List.find?, hp] at h
    | false =>
      simp only [List.find?, hp, List.cons_append] at h ⊢
      exact find?_append_of_none p l1 l2 h

theorem find?_append_of_some {α : Type} (p : α → Bool) :
    ∀ (l1 l2 : List α) (a : α), l1.find? p = some a → (l1 ++ l2).find? p = some a
  | [], _, _, h => by simp [List.find?] at h
  | b :: l1, l2, a, h => by
    cases hp : p b with
    | true =>
      simp [List.find?, hp] at h ⊢
      exact h
    | false =>
      simp only [List.find?, hp, List.cons_append] at h ⊢
      exact find?_append_of_some p l1 l2 a h

theorem saveImages_lookup : ∀ (imgs : List InputImage) (fs : Fs) (p : String),
    fsLookup (saveImages fs imgs).1 p =
      match imgs.reverse.find? (fun im => savePath im.name = p) with
      | some im => some (b64decodeStr im.image)
      | none => fsLookup fs p
  | [], fs, p => by simp [saveImages]
  | im :: rest, fs, p => by
    have ih := saveImages_lookup rest
      (fsWrite fs (savePath im.name) (b64decodeStr im.image)) p
    simp only [saveImages]
    rw [ih, List.reverse_cons]
    cases hf : rest.reverse.find? (fun im => decide (savePath im.name = p)) with
    | some im2 => rw [find?_append_of_some _ _ _ _ hf]
    | none =>
      rw [find?_append_of_none _ _ _ hf]
      by_cases hp : savePath im.name = p
      · simp [List.find?, hp, fsLookup_fsWrite]
      · simp [List.find?, hp, fsLookup_fsWrite]

/-! ### The handler (src/handler.py lines 75-140).

`Env` packages the external collaborators of one invocation:
`probeOk k` — whether liveness attempt `k` gets any response (line 97);
`queueResp` — the submission response (lines 41-44);
`wsMsgs` — the push channel's message sequence;
`history` — the `/history/<prompt_id>` store (lines 57-60);
`get_image` — the `/view` artifact endpoint (lines 63-71), `none` = failure. -/

structure Env where
  clientId : String
  probeOk : Nat → Bool
  queueResp : QueueResponse
  wsMsgs : List WsMsg
  history : String → Option HistoryRecord
  get_image : String → String → String → Option (List Nat)

/-- The ways one invocation ends: a result value with an `"images"` list, the
structured `{"error": ...}` value, or a raised exception. -/
inductive HandlerError where
  | serviceUnavailable
  | submissionFailed
  | channelClosed
  | historyMissing
  | fetchFailed
  deriving DecidableEq

inductive HandlerResult where
  | images (imgs : List OutputImage)
  | errorMsg (msg : String)
  | raised (e : HandlerError)
  deriving DecidableEq

structure RunOutcome where
  result : HandlerResult
  fs : Fs
  trace : List Event
  deriving DecidableEq

/-- The caller-facing job input: the opaque workflow (never inspected, so
represented by an arbitrary token) and the optional `"images"` list
(`job_input.get("images", [])`, line 79). -/
structure JobInput where
  workflow : Nat
  images : Option (List InputImage)
  deriving DecidableEq

/-- The handler, lines 75-140, as a function of the environment, the initial
filesystem and the job input; returns the outcome, the final filesystem and
the event trace up to the return or the raised exception. -/
def handler (env : Env) (fs0 : Fs) (input : JobInput) : RunOutcome :=
  if (probeLoop env.probeOk 0 120).1 = true then
    match queue_prompt env.queueResp with
    | .error _ =>
      ⟨.raised .submissionFailed,
       (saveImages fs0 (input.images.getD [])).1,
       (saveImages fs0 (input.images.getD [])).2 ++ (probeLoop env.probeOk 0 120).2 ++
         [.wsConnect env.clientId]⟩
    | .ok pid =>
      match wait_for_execution pid env.wsMsgs with
      | none =>
        ⟨.raised .channelClosed,
         (saveImages fs0 (input.images.getD [])).1,
         (saveImages fs0 (input.images.getD [])).2 ++ (probeLoop env.probeOk 0 120).2 ++
           [.wsConnect env.clientId, .submit pid]⟩
      | some _ =>
        match env.history pid with
        | none =>
          ⟨.raised .historyMissing,
           (saveImages fs0 (input.images.getD [])).1,
           (saveImages fs0 (input.images.getD [])).2 ++ (probeLoop env.probeOk 0 120).2 ++
             [.wsConnect env.clientId, .submit pid, .waitDone pid, .historyFetch pid]⟩
        | some hist =>
          match (collectNodes env.get_image hist.outputs).1 with
          | none =>
            ⟨.raised .fetchFailed,
             (saveImages fs0 (input.images.getD [])).1,
             (saveImages fs0 (input.images.getD [])).2 ++ (probeLoop env.probeOk 0 120).2 ++
               [.wsConnect env.clientId, .submit pid, .waitDone pid, .historyFetch pid] ++
               (collectNodes env.get_image hist.outputs).2⟩
          | some outs =>
            ⟨if outs.isEmpty then .errorMsg "No images generated" else .images outs,
             (saveImages fs0 (input.images.getD [])).1,
             (saveImages fs0 (input.images.getD [])).2 ++ (probeLoop env.probeOk 0 120).2 ++
               [.wsConnect env.clientId, .submit pid, .waitDone pid, .historyFetch pid] ++
               (collectNodes env.get_image hist.outputs).2⟩
  else
    ⟨.raised .serviceUnavailable,
     (saveImages fs0 (input.images.getD [])).1,
     (saveImages fs0 (input.images.getD [])).2 ++ (probeLoop env.probeOk 0 120).2⟩

/-- Unfolding of a run that reaches the collection phase. -/
theorem handler_run (env : Env) (fs0 : Fs) (input : JobInput) (pid : String)
    (i : Nat) (hist : HistoryRecord)
    (hp : (probeLoop env.probeOk 0 120).1 = true)
    (hq : queue_prompt env.queueResp = .ok pid)
    (hw : wait_for_execution pid env.wsMsgs = some i)
    (hh : env.history pid = some hist) :
    handler env fs0 input =
      ⟨(match (collectNodes env.get_image hist.outputs).1 with
        | none => .raised .fetchFailed
        | some outs =>
          if outs.isEmpty then .errorMsg "No images generated" else .images outs),
       (saveImages fs0 (input.images.getD [])).1,
       (saveImages fs0 (input.images.getD [])).2 ++ (probeLoop env.probeOk 0 120).2 ++
         [.wsConnect env.clientId, .submit pid, .waitDone pid, .historyFetch pid] ++
         (collectNodes env.get_image hist.outputs).2⟩ := by
    simp only [handler, hp, hq, hw, hh, eq_self_iff_true, if_true]
    cases (collectNodes env.get_image hist.outputs).1 <;> rfl

/-- The final filesystem is always the one produced by the input-image save
loop: the handler writes nothing else. -/
theorem handler_fs (env : Env) (fs0 : Fs) (input : JobInput) :
    (handler env fs0 input).fs = (saveImages fs0 (input.images.getD [])).1 := by
  unfold handler
  split
  · split
    · rfl
    · split
      · rfl
      · split
        · rfl
        · split
          · rfl
          · rfl
  · rfl


/-- Every trace starts with the save events, then the probe events, and no
event after the save phase is a save. -/
theorem handler_trace_shape (env : Env) (fs0 : Fs) (input : JobInput) :
    ∃ rest,
      (handler env fs0 input).trace =
        ((input.images.getD []).map fun im =>
          .saveImage (savePath im.name) (b64decodeStr im.image)) ++
        (probeLoop env.probeOk 0 120).2 ++ rest ∧
      (∀ e ∈ (probeLoop env.probeOk 0 120).2, isSaveEv e = false) ∧
      (∀ e ∈ rest, isSaveEv e = false) := by
  have hprobe : ∀ e ∈ (probeLoop env.probeOk 0 120).2, isSaveEv e = false := by
    intro e he
    rcases probeLoop_events env.probeOk 120 0 e he with ⟨j, rfl⟩ | rfl <;> rfl
  have hsave := saveImages_trace (input.images.getD []) fs0
  by_cases hp : (probeLoop env.probeOk 0 120).1 = true
  · cases hq : queue_prompt env.queueResp with
    | error u =>
      refine ⟨[.wsConnect env.clientId], ?_, hprobe, by simp [isSaveEv]⟩
      simp [handler, hp, hq, hsave]
    | ok pid =>
      cases hw : wait_for_execution pid env.wsMsgs with
      | none =>
        refine ⟨[.wsConnect env.clientId, .submit pid], ?_, hprobe, by simp [isSaveEv]⟩
        simp [handler, hp, hq, hw, hsave]
      | some i =>
        cases hh : env.history pid with
        | none =>
          refine ⟨[.wsConnect env.clientId, .submit pid, .waitDone pid,
            .historyFetch pid], ?_, hprobe, by simp [isSaveEv]⟩
          simp [handler, hp, hq, hw, hh, hsave]
        | some hist =>
          have hcoll : ∀ e ∈ (collectNodes env.get_image hist.outputs).2,
              isSaveEv e = false := by
            intro e he
            rcases collectNodes_events env.get_image hist.outputs e he with ⟨a, b, c, rfl⟩
            rfl
          refine ⟨[.wsConnect env.clientId, .submit pid, .waitDone pid,
            .historyFetch pid] ++ (collectNodes env.get_image hist.outputs).2, ?_,
            hprobe, ?_⟩
          · rw [handler_run env fs0 input pid i hist hp hq hw hh]
            simp [hsave]
          · intro e he
            rcases List.mem_append.mp he with he | he
            · simp only [List.mem_cons] at he
              rcases he with rfl | rfl | rfl | rfl | he
              · rfl
              · rfl
              · rfl
              · rfl
              · simp at he
            · exact hcoll e he
  · refine ⟨[], ?_, hprobe, by simp⟩
    unfold handler
    rw [if_neg hp]
    simp [hsave]

/-! ### Ordering of events within a trace. -/

/-- `occursBefore p q tr` holds when some `p`-event is strictly followed,
later in the trace, by some `q`-event. -/
def occursBefore (p q : Event → Bool) : List Event → Bool
  | [] => false
  | e :: rest => if p e then rest.any q else occursBefore p q rest

theorem occursBefore_any (p q : Event → Bool) :
    ∀ (l : List Event), occursBefore p q l = true → l.any q = true
  | e :: rest, h => by
    by_cases hp : p e = true
    · simp only [occursBefore, if_pos hp] at h
      simp [List.any_cons, h]
    · simp only [occursBefore, if_neg hp] at h
      simp [List.any_cons, occursBefore_any p q rest h]

theorem occursBefore_mem (p q : Event → Bool) :
    ∀ (xs ys : List Event) (a b : Event), a ∈ xs → p a = true → b ∈ ys → q b = true →
    occursBefore p q (xs ++ ys) = true
  | [], _, a, _, ha, _, _, _ => absurd ha (List.not_mem_nil a)
  | x :: xs, ys, a, b, ha, hpa, hb, hqb => by
    by_cases hx : p x = true
    · simp only [List.cons_append, occursBefore, if_pos hx]
      have : ys.any q = true := List.any_of_mem hb hqb
      simp [List.any_append, this]
    · simp only [List.cons_append, occursBefore, if_neg hx]
      have ha' : a ∈ xs := by
        rcases List.mem_cons.mp ha with rfl | h
        · exact absurd hpa hx
        · exact h
      exact occursBefore_mem p q xs ys a b ha' hpa hb hqb

/-! ### Per-component event classification. -/

theorem saveImages_eventPid (fs : Fs) (imgs : List InputImage) :
    ∀ e ∈ (saveImages fs imgs).2, eventPid e = none := by
  rw [saveImages_trace]
  intro e he
  rcases List.mem_map.mp he with ⟨im, _, rfl⟩
  rfl

theorem probeLoop_eventPid (ok : Nat → Bool) (fuel k : Nat) :
    ∀ e ∈ (probeLoop ok k fuel).2, eventPid e = none := by
  intro e he
  rcases probeLoop_events ok fuel k e he with ⟨j, rfl⟩ | rfl <;> rfl

theorem collectNodes_eventPid (g : String → String → String → Option (List Nat))
    (outputs : List OutputNode) :
    ∀ e ∈ (collectNodes g outputs).2, eventPid e = none := by
  intro e he
  rcases collectNodes_events g outputs e he with ⟨a, b, c, rfl⟩
  rfl

/-- The handler raises `ServiceUnavailable` exactly when the probe loop
exhausts its budget without a response. -/
theorem handler_serviceUnavailable_iff (env : Env) (fs0 : Fs) (input : JobInput) :
    (handler env fs0 input).result = .raised .serviceUnavailable ↔
      (probeLoop env.probeOk 0 120).1 = false := by
  by_cases hp : (probeLoop env.probeOk 0 120).1 = true
  · cases hq : queue_prompt env.queueResp with
    | error u => simp [handler, hp, hq]
    | ok pid =>
      cases hw : wait_for_execution pid env.wsMsgs with
      | none => simp [handler, hp, hq, hw]
      | some i =>
        cases hh : env.history pid with
        | none => simp [handler, hp, hq, hw, hh]
        | some hist =>
          rw [handler_run env fs0 input pid i hist hp hq hw hh]
          cases hcol : (collectNodes env.get_image hist.outputs).1 with
          | none => simp [hp]
          | some outs =>
            by_cases he : outs.isEmpty <;> simp [he, hp]
  · have hfalse : (probeLoop env.probeOk 0 120).1 = false := by
      cases h : (probeLoop env.probeOk 0 120).1
      · rfl
      · exact absurd h hp
    unfold handler
    rw [if_neg hp]
    simp [hfalse]

/-! ## Claims -/

/-- C1: for every sequence of push-channel messages, `wait_for_execution`
(given a tracked job identifier) returns exactly at the first textual message
of type `"executing"` with `data.node = null` and `data.prompt_id` equal to
the tracked identifier; every earlier message — binary messages, messages of
other types, `"executing"` messages with a non-null node, and `"executing"`
messages with a different `prompt_id` — is silently ignored and the loop
continues (and the loop never returns when no such message arrives). -/
theorem c1_wait_first_terminal (prompt_id : String) (msgs : List WsMsg) :
    (∀ i, wait_for_execution prompt_id msgs = some i ↔
      (i < msgs.length ∧
       isTerminalMsg prompt_id (msgs.getD i (.binary [])) = true ∧
       ∀ j, j < i → isTerminalMsg prompt_id (msgs.getD j (.binary [])) = false)) ∧
    (wait_for_execution prompt_id msgs = none ↔
      ∀ j, j < msgs.length → isTerminalMsg prompt_id (msgs.getD j (.binary [])) = false) ∧
    (∀ payload, isTerminalMsg prompt_id (.binary payload) = false) ∧
    (∀ t node pid, isTerminalMsg prompt_id (.text t node pid) = true ↔
      (t = "executing" ∧ node = none ∧ pid = prompt_id)) :=
  ⟨fun i => wait_spec prompt_id msgs i, wait_none prompt_id msgs,
   fun _ => rfl, fun t node pid => by simp [isTerminalMsg]⟩

/-- C3: when a completed job's history record contains zero artifact
references (no output node has a non-empty `"images"` list), the handler
returns the structured outcome `{"error": "No images generated"}` rather
than raising. -/
theorem c3_no_images_soft_outcome (env : Env) (fs0 : Fs) (input : JobInput)
    (pid : String) (i : Nat) (hist : HistoryRecord)
    (hp : (probeLoop env.probeOk 0 120).1 = true)
    (hq : queue_prompt env.queueResp = .ok pid)
    (hw : wait_for_execution pid env.wsMsgs = some i)
    (hh : env.history pid = some hist)
    (hz : allRefs hist.outputs = []) :
    (handler env fs0 input).result = .errorMsg "No images generated" := by
  have hok := collectNodes_ok env.get_image hist.outputs
    (fun r hr => absurd hr (by simp [hz]))
  rw [handler_run env fs0 input pid i hist hp hq hw hh]
  simp [hok, hz]

def envC3 : Env where
  clientId := "cid"
  probeOk := fun _ => true
  queueResp := ⟨some "p"⟩
  wsMsgs := [.text "executing" none "p"]
  history := fun _ => some ⟨[⟨none⟩, ⟨some []⟩]⟩
  get_image := fun _ _ _ => none

theorem c3_witness :
    (handler envC3 [] ⟨0, none⟩).result = .errorMsg "No images generated" :=
  c3_no_images_soft_outcome envC3 [] ⟨0, none⟩ "p" 0 ⟨[⟨none⟩, ⟨some []⟩]⟩
    rfl rfl rfl rfl rfl

/-- C4: the readiness probe stops at the first successful liveness response
(performing no further attempts or sleeps: a first success at attempt `m`
gives exactly `m + 1` attempts and `m` sleeps), and the handler fails with
`ServiceUnavailable` exactly when all 120 configured attempts fail — never
earlier — with the 1-second sleep between consecutive failed attempts. -/
theorem c4_readiness_probe (ok : Nat → Bool) :
    (∀ m, m < 120 → ok m = true → (∀ j, j < m → ok j = false) →
      (probeLoop ok 0 120).1 = true ∧
      attemptsOf (probeLoop ok 0 120).2 = m + 1 ∧
      sleepsOf (probeLoop ok 0 120).2 = m) ∧
    ((∀ j, j < 120 → ok j = false) →
      (probeLoop ok 0 120).1 = false ∧
      attemptsOf (probeLoop ok 0 120).2 = 120 ∧
      sleepsOf (probeLoop ok 0 120).2 = 120) ∧
    (∀ (env : Env) (fs0 : Fs) (input : JobInput),
      (handler env fs0 input).result = .raised .serviceUnavailable ↔
        (probeLoop env.probeOk 0 120).1 = false) := by
  refine ⟨?_, ?_, fun env fs0 input => handler_serviceUnavailable_iff env fs0 input⟩
  · intro m hm hk hmin
    have := probeLoop_success ok m 0 120 hm (by simpa using hk)
      (fun j hj => by simpa using hmin j hj)
    exact this
  · intro h
    exact probeLoop_fail ok 120 0 (fun j hj => by simpa using h j hj)

theorem c4_witness :
    (probeLoop (fun k => decide (k = 5)) 0 120).1 = true ∧
    attemptsOf (probeLoop (fun k => decide (k = 5)) 0 120).2 = 6 ∧
    sleepsOf (probeLoop (fun k => decide (k = 5)) 0 120).2 = 5 :=
  (c4_readiness_probe (fun k => decide (k = 5))).1 5 (by omega) (by simp)
    (fun j hj => by
      simp only [decide_eq_false_iff_not]
      omega)

/-- C2 as stated: for every history record reached by a run, with all
retrievals succeeding, the handler returns an `"images"` list with one entry
per artifact reference — with no restriction on the number M of references,
i.e. also when M = 0. -/
def C2_stated : Prop :=
  ∀ (env : Env) (fs0 : Fs) (input : JobInput) (pid : String) (i : Nat)
    (hist : HistoryRecord),
    (probeLoop env.probeOk 0 120).1 = true →
    queue_prompt env.queueResp = .ok pid →
    wait_for_execution pid env.wsMsgs = some i →
    env.history pid = some hist →
    (∀ r ∈ allRefs hist.outputs,
      (env.get_image r.filename r.subfolder r.ftype).isSome = true) →
    (handler env fs0 input).result =
      .images ((allRefs hist.outputs).map fun r =>
        ⟨r.filename, b64encodeStr ((env.get_image r.filename r.subfolder r.ftype).getD [])⟩)

def envC2 : Env where
  clientId := "cid"
  probeOk := fun _ => true
  queueResp := ⟨some "p"⟩
  wsMsgs := [.text "executing" none "p"]
  history := fun _ => some ⟨[⟨some []⟩]⟩
  get_image := fun _ _ _ => none

/-- C2, counterexample: a history record with one node bearing an `"images"`
list that is empty (N = 1 nodes, M = 0 references, all zero retrievals
vacuously succeed) makes the handler return `{"error": "No images
generated"}`, not a result with an empty `"images"` list. -/
theorem c2_counterexample : ¬ C2_stated := by
  intro h
  have hc := h envC2 [] ⟨0, none⟩ "p" 0 ⟨[⟨some []⟩]⟩ rfl rfl rfl rfl
    (fun r hr => absurd hr (by simp [allRefs]))
  have hres : (handler envC2 [] ⟨0, none⟩).result = .errorMsg "No images generated" :=
    c3_no_images_soft_outcome envC2 [] ⟨0, none⟩ "p" 0 ⟨[⟨some []⟩]⟩ rfl rfl rfl rfl rfl
  rw [hres] at hc
  simp [allRefs] at hc

/-- C2, amended: for every history record whose outputs contain N nodes
bearing an `"images"` list, totaling M ≥ 1 artifact references, the handler
performs exactly M artifact retrievals (one per reference, in iteration
order — the fetch events of the trace are exactly the references in order)
and, when all succeed, returns a result whose `"images"` list has exactly M
entries, each with `name` the reference's filename and `data` the base64
encoding of the fetched bytes; nodes without an `"images"` key contribute
nothing; when M = 0 the handler instead returns the distinguished
`{"error": "No images generated"}` outcome (claim C3). -/
theorem c2_amended (env : Env) (fs0 : Fs) (input : JobInput) (pid : String)
    (i : Nat) (hist : HistoryRecord)
    (hp : (probeLoop env.probeOk 0 120).1 = true)
    (hq : queue_prompt env.queueResp = .ok pid)
    (hw : wait_for_execution pid env.wsMsgs = some i)
    (hh : env.history pid = some hist)
    (hall : ∀ r ∈ allRefs hist.outputs,
      (env.get_image r.filename r.subfolder r.ftype).isSome = true)
    (hne : allRefs hist.outputs ≠ []) :
    (handler env fs0 input).result =
      .images ((allRefs hist.outputs).map fun r =>
        ⟨r.filename, b64encodeStr ((env.get_image r.filename r.subfolder r.ftype).getD [])⟩) ∧
    (handler env fs0 input).trace.filter isFetchEv =
      (allRefs hist.outputs).map fun r => .fetchImage r.filename r.subfolder r.ftype := by
  have hok := collectNodes_ok env.get_image hist.outputs hall
  rw [handler_run env fs0 input pid i hist hp hq hw hh]
  constructor
  · rcases hvv : allRefs hist.outputs with _ | ⟨a, l⟩
    · exact absurd hvv hne
    · simp only [hok, hvv]
      simp
  · simp only [hok, List.filter_append]
    have h1 : ((saveImages fs0 (input.images.getD [])).2).filter isFetchEv = [] := by
      rw [List.filter_eq_nil_iff]
      intro e he
      rcases List.mem_map.mp ((saveImages_trace (input.images.getD []) fs0) ▸ he)
        with ⟨im, _, rfl⟩
      simp [isFetchEv]
    have h2 : ((probeLoop env.probeOk 0 120).2).filter isFetchEv = [] := by
      rw [List.filter_eq_nil_iff]
      intro e he
      rcases probeLoop_events env.probeOk 120 0 e he with ⟨j, rfl⟩ | rfl <;>
        simp [isFetchEv]
    have h3 : ([Event.wsConnect env.clientId, .submit pid, .waitDone pid,
        .historyFetch pid]).filter isFetchEv = [] := by
      simp [List.filter, isFetchEv]
    have h4 : ((allRefs hist.outputs).map fun r =>
        Event.fetchImage r.filename r.subfolder r.ftype).filter isFetchEv =
        (allRefs hist.outputs).map fun r =>
          Event.fetchImage r.filename r.subfolder r.ftype := by
      rw [List.filter_eq_self]
      intro e he
      rcases List.mem_map.mp he with ⟨r, _, rfl⟩
      simp [isFetchEv]
    rw [h1, h2, h3, h4]
    simp

def histC2w : HistoryRecord := ⟨[⟨some [⟨"out.png", "", "output"⟩]⟩]⟩

def envC2w : Env where
  clientId := "cid"
  probeOk := fun _ => true
  queueResp := ⟨some "p"⟩
  wsMsgs := [.text "executing" none "p"]
  history := fun _ => some histC2w
  get_image := fun _ _ _ => some [7, 200]

theorem c2_witness :
    (handler envC2w [] ⟨0, none⟩).result =
      .images ((allRefs histC2w.outputs).map fun r =>
        ⟨r.filename, b64encodeStr ((envC2w.get_image r.filename r.subfolder r.ftype).getD [])⟩) ∧
    (handler envC2w [] ⟨0, none⟩).trace.filter isFetchEv =
      (allRefs histC2w.outputs).map fun r =>
        .fetchImage r.filename r.subfolder r.ftype :=
  c2_amended envC2w [] ⟨0, none⟩ "p" 0 histC2w rfl rfl rfl rfl
    (by decide) (by decide)

/-- C5: a single failed artifact retrieval fails the whole invocation (the
handler raises), and the handler never returns an `"images"` list that is a
strict subset of the record's references: any returned list has exactly as
many entries as the history record has references. -/
theorem c5_no_partial_results :
    (∀ (env : Env) (fs0 : Fs) (input : JobInput) (pid : String) (i : Nat)
       (hist : HistoryRecord) (r : ImageRef),
       (probeLoop env.probeOk 0 120).1 = true →
       queue_prompt env.queueResp = .ok pid →
       wait_for_execution pid env.wsMsgs = some i →
       env.history pid = some hist →
       r ∈ allRefs hist.outputs →
       env.get_image r.filename r.subfolder r.ftype = none →
       (handler env fs0 input).result = .raised .fetchFailed) ∧
    (∀ (env : Env) (fs0 : Fs) (input : JobInput) (l : List OutputImage),
       (handler env fs0 input).result = .images l →
       ∃ pid hist, queue_prompt env.queueResp = .ok pid ∧
         env.history pid = some hist ∧
         l.length = (allRefs hist.outputs).length) := by
  constructor
  · intro env fs0 input pid i hist r hp hq hw hh hr hnone
    have hfail := collectNodes_fail env.get_image hist.outputs r hr hnone
    rw [handler_run env fs0 input pid i hist hp hq hw hh]
    simp [hfail]
  · intro env fs0 input l h
    by_cases hp : (probeLoop env.probeOk 0 120).1 = true
    · cases hq : queue_prompt env.queueResp with
      | error u => simp [handler, hp, hq] at h
      | ok pid =>
        cases hw : wait_for_execution pid env.wsMsgs with
        | none => simp [handler, hp, hq, hw] at h
        | some i =>
          cases hh : env.history pid with
          | none => simp [handler, hp, hq, hw, hh] at h
          | some hist =>
            rw [handler_run env fs0 input pid i hist hp hq hw hh] at h
            cases hcol : (collectNodes env.get_image hist.outputs).1 with
            | none => simp [hcol] at h
            | some outs =>
              refine ⟨pid, hist, rfl, hh, ?_⟩
              by_cases he : outs.isEmpty
              · simp [hcol, he] at h
              · simp only [hcol, he, if_false, Bool.false_eq_true] at h
                have : outs = l := by
                  cases h
                  rfl
                rw [← this]
                exact collectNodes_length env.get_image hist.outputs outs
                  (by simp [hcol])
    · unfold handler at h
      rw [if_neg hp] at h
      simp at h

def envC5 : Env where
  clientId := "cid"
  probeOk := fun _ => true
  queueResp := ⟨some "p"⟩
  wsMsgs := [.text "executing" none "p"]
  history := fun _ => some ⟨[⟨some [⟨"out.png", "", "output"⟩]⟩]⟩
  get_image := fun _ _ _ => none

theorem c5_witness :
    (handler envC5 [] ⟨0, none⟩).result = .raised .fetchFailed :=
  c5_no_partial_results.1 envC5 [] ⟨0, none⟩ "p" 0
    ⟨[⟨some [⟨"out.png", "", "output"⟩]⟩]⟩ ⟨"out.png", "", "output"⟩
    rfl rfl rfl rfl (by decide) rfl

/-- C6 as stated: in every run that passes the probe and obtains a job
identifier, a submission event occurs strictly before the push-channel
connection is opened. -/
def C6_stated : Prop :=
  ∀ (env : Env) (fs0 : Fs) (input : JobInput) (pid : String),
    queue_prompt env.queueResp = .ok pid →
    (probeLoop env.probeOk 0 120).1 = true →
    occursBefore isSubmitEv isConnectEv (handler env fs0 input).trace = true

def envC6 : Env where
  clientId := "cid"
  probeOk := fun _ => true
  queueResp := ⟨some "p"⟩
  wsMsgs := [.text "executing" none "p"]
  history := fun _ => some ⟨[]⟩
  get_image := fun _ _ _ => none

/-- C6, counterexample: in the run of `envC6` the trace is
`[probeAttempt 0, wsConnect, submit, waitDone, historyFetch]` — the
connection is opened (line 107) before the workflow is submitted (line 110),
so no submit event precedes the connect event. -/
theorem c6_counterexample : ¬ C6_stated := by
  intro h
  have hc := h envC6 [] ⟨0, none⟩ "p" rfl rfl
  have hfalse :
      occursBefore isSubmitEv isConnectEv (handler envC6 [] ⟨0, none⟩).trace = false := by
    decide
  rw [hfalse] at hc
  exact absurd hc (by simp)

/-- C6, amended: the state machine advances with the readiness probe first;
after the probe succeeds the push-channel connection is opened (scoped to
the client identity), and only then is the workflow submitted and the
tracked job identifier set from the submission result; i.e., the opening of
the push-channel connection precedes workflow submission (and a probe
attempt precedes the connection). -/
theorem c6_amended (env : Env) (fs0 : Fs) (input : JobInput) (pid : String)
    (hq : queue_prompt env.queueResp = .ok pid)
    (hp : (probeLoop env.probeOk 0 120).1 = true) :
    occursBefore isProbeEv isConnectEv (handler env fs0 input).trace = true ∧
    occursBefore isConnectEv isSubmitEv (handler env fs0 input).trace = true := by
  have htr : ∃ tail,
      (handler env fs0 input).trace =
        (saveImages fs0 (input.images.getD [])).2 ++ (probeLoop env.probeOk 0 120).2 ++
          (Event.wsConnect env.clientId :: Event.submit pid :: tail) := by
    cases hw : wait_for_execution pid env.wsMsgs with
    | none =>
      refine ⟨[], ?_⟩
      simp [handler, hp, hq, hw]
    | some i =>
      cases hh : env.history pid with
      | none =>
        refine ⟨[.waitDone pid, .historyFetch pid], ?_⟩
        simp [handler, hp, hq, hw, hh]
      | some hist =>
        refine ⟨[.waitDone pid, .historyFetch pid] ++
          (collectNodes env.get_image hist.outputs).2, ?_⟩
        rw [handler_run env fs0 input pid i hist hp hq hw hh]
        simp
  rcases htr with ⟨tail, htr⟩
  rcases probeLoop_head env.probeOk 0 119 with ⟨t, hhead⟩
  have hnum : (119 : Nat) + 1 = 120 := rfl
  rw [hnum] at hhead
  constructor
  · rw [htr]
    rw [show (saveImages fs0 (input.images.getD [])).2 ++ (probeLoop env.probeOk 0 120).2 ++
        (Event.wsConnect env.clientId :: Event.submit pid :: tail) =
        ((saveImages fs0 (input.images.getD [])).2 ++ (probeLoop env.probeOk 0 120).2) ++
        (Event.wsConnect env.clientId :: Event.submit pid :: tail) from by simp]
    exact occursBefore_mem isProbeEv isConnectEv _ _ (.probeAttempt 0)
      (.wsConnect env.clientId)
      (by rw [hhead]; simp) rfl (by simp) rfl
  · rw [htr]
    rw [show (saveImages fs0 (input.images.getD [])).2 ++ (probeLoop env.probeOk 0 120).2 ++
        (Event.wsConnect env.clientId :: Event.submit pid :: tail) =
        ((saveImages fs0 (input.images.getD [])).2 ++ (probeLoop env.probeOk 0 120).2 ++
          [Event.wsConnect env.clientId]) ++ (Event.submit pid :: tail) from by simp]
    exact occursBefore_mem isConnectEv isSubmitEv _ _ (.wsConnect env.clientId)
      (.submit pid) (by simp) rfl (by simp) rfl

theorem c6_witness :
    occursBefore isProbeEv isConnectEv (handler envC6 [] ⟨0, none⟩).trace = true ∧
    occursBefore isConnectEv isSubmitEv (handler envC6 [] ⟨0, none⟩).trace = true :=
  c6_amended envC6 [] ⟨0, none⟩ "p" rfl rfl

/-- C7 as stated: the job identifier returned by the submission client is
always a non-empty string. -/
def C7_stated : Prop :=
  ∀ (res : QueueResponse) (s : String), queue_prompt res = .ok s → s ≠ ""

/-- C7, counterexample: the submission client performs no validation: if the
service responds with `prompt_id = ""`, `queue_prompt` returns the empty
string as a successful job identifier. -/
theorem c7_counterexample : ¬ C7_stated := fun h => h ⟨some ""⟩ "" rfl rfl

/-- C7, amended: the job identifier is exactly the `prompt_id` field of the
submission response, passed through unvalidated (so it is non-empty exactly
when the service supplies a non-empty value), and it is stable for the
orchestration run: every identifier-carrying step of the trace — submission,
completion listening, history retrieval — carries that same identifier,
which is never reassigned. -/
theorem c7_stable_identifier :
    (∀ (res : QueueResponse) (s : String),
      queue_prompt res = .ok s → res.prompt_id = some s) ∧
    (∀ (env : Env) (fs0 : Fs) (input : JobInput) (pid : String),
      queue_prompt env.queueResp = .ok pid →
      ∀ e ∈ (handler env fs0 input).trace,
        eventPid e = none ∨ eventPid e = some pid) := by
  constructor
  · intro res s h
    cases hres : res.prompt_id with
    | none => simp [queue_prompt, hres] at h
    | some v =>
      simp only [queue_prompt, hres, Except.ok.injEq] at h
      rw [h]
  · intro env fs0 input pid hq e he
    have hsv := saveImages_eventPid fs0 (input.images.getD [])
    have hpr := probeLoop_eventPid env.probeOk 120 0
    have hpre : ∀ x ∈ (saveImages fs0 (input.images.getD [])).2 ++
        (probeLoop env.probeOk 0 120).2, eventPid x = none := by
      intro x hx
      rcases List.mem_append.mp hx with hx | hx
      · exact hsv x hx
      · exact hpr x hx
    have hmid : ∀ x ∈ [Event.wsConnect env.clientId, Event.submit pid,
        Event.waitDone pid, Event.historyFetch pid],
        eventPid x = none ∨ eventPid x = some pid := by
      intro x hx
      simp only [List.mem_cons] at hx
      rcases hx with rfl | rfl | rfl | rfl | hx
      · exact Or.inl rfl
      · exact Or.inr rfl
      · exact Or.inr rfl
      · exact Or.inr rfl
      · simp at hx
    by_cases hp : (probeLoop env.probeOk 0 120).1 = true
    · cases hw : wait_for_execution pid env.wsMsgs with
      | none =>
        rw [show (handler env fs0 input).trace =
            (saveImages fs0 (input.images.getD [])).2 ++ (probeLoop env.probeOk 0 120).2 ++
              [Event.wsConnect env.clientId, Event.submit pid] from by
          simp [handler, hp, hq, hw]] at he
        rcases List.mem_append.mp he with he | he
        · exact Or.inl (hpre e he)
        · simp only [List.mem_cons] at he
          rcases he with rfl | rfl | he
          · exact Or.inl rfl
          · exact Or.inr rfl
          · simp at he
      | some i =>
        cases hh : env.history pid with
        | none =>
          rw [show (handler env fs0 input).trace =
              (saveImages fs0 (input.images.getD [])).2 ++ (probeLoop env.probeOk 0 120).2 ++
                [Event.wsConnect env.clientId, Event.submit pid, Event.waitDone pid,
                 Event.historyFetch pid] from by
            simp [handler, hp, hq, hw, hh]] at he
          rcases List.mem_append.mp he with he | he
          · exact Or.inl (hpre e he)
          · exact hmid e he
        | some hist =>
          rw [handler_run env fs0 input pid i hist hp hq hw hh] at he
          rcases List.mem_append.mp he with he | he
          · rcases List.mem_append.mp he with he | he
            · exact Or.inl (hpre e he)
            · exact hmid e he
          · exact Or.inl (collectNodes_eventPid env.get_image hist.outputs e he)
    · rw [show (handler env fs0 input).trace =
          (saveImages fs0 (input.images.getD [])).2 ++ (probeLoop env.probeOk 0 120).2 from by
        unfold handler
        rw [if_neg hp]] at he
      exact Or.inl (hpre e he)

theorem c7_witness : (⟨some "q"⟩ : QueueResponse).prompt_id = some "q" :=
  c7_stable_identifier.1 ⟨some "q"⟩ "q" rfl

/-- C8: every supplied input image is persisted before the readiness probe
(and hence before submission) begins — the trace is the save events, in
input order, followed by the probe events, and no later event is a save;
persistence decodes the base64 payload and writes it to the fixed input
location under the caller-given name, the last write to a path winning
(overwriting pre-existing files); a job without an `"images"` field
persists nothing and proceeds identically to one with an empty list. -/
theorem c8_inputs_persisted_before_probe :
    (∀ (env : Env) (fs0 : Fs) (input : JobInput), ∃ rest,
      (handler env fs0 input).trace =
        ((input.images.getD []).map fun im =>
          Event.saveImage (savePath im.name) (b64decodeStr im.image)) ++
        (probeLoop env.probeOk 0 120).2 ++ rest ∧
      (∀ e ∈ (probeLoop env.probeOk 0 120).2, isSaveEv e = false) ∧
      (∀ e ∈ rest, isSaveEv e = false)) ∧
    (∀ (env : Env) (fs0 : Fs) (input : JobInput) (p : String),
      fsLookup (handler env fs0 input).fs p =
        match (input.images.getD []).reverse.find?
            (fun im => savePath im.name = p) with
        | some im => some (b64decodeStr im.image)
        | none => fsLookup fs0 p) ∧
    (∀ (env : Env) (fs0 : Fs) (w : Nat),
      handler env fs0 ⟨w, none⟩ = handler env fs0 ⟨w, some []⟩) := by
  refine ⟨handler_trace_shape, ?_, ?_⟩
  · intro env fs0 input p
    rw [handler_fs]
    exact saveImages_lookup (input.images.getD []) fs0 p
  · intro env fs0 w
    rfl

def envC8 : Env where
  clientId := "cid"
  probeOk := fun _ => true
  queueResp := ⟨some "p"⟩
  wsMsgs := [.text "executing" none "p"]
  history := fun _ => some ⟨[]⟩
  get_image := fun _ _ _ => none

theorem c8_witness :
    fsLookup (handler envC8 [("/input/a.png", [9])] ⟨0,
        some [⟨"a.png", "AA=="⟩, ⟨"b.png", "AAA="⟩]⟩).fs "/input/a.png" =
      some (b64decodeStr "AA==") := by
  have h := c8_inputs_persisted_before_probe.2.1 envC8 [("/input/a.png", [9])]
    ⟨0, some [⟨"a.png", "AA=="⟩, ⟨"b.png", "AAA="⟩]⟩ "/input/a.png"
  rw [h]
  decide

/-- C9: round trip of the payload encoding — an input image supplied as
base64 is decoded on persistence, an output artifact's bytes are
base64-encoded in the result, and for a workflow that copies the persisted
input byte-for-byte to the output artifact, the returned `data` decodes to
content byte-identical to the decoded supplied base64 (decode-then-encode
over the persist/fetch path is the identity on the payload bytes). -/
theorem c9_payload_roundtrip (env : Env) (fs0 : Fs) (w : Nat) (nm s : String)
    (r : ImageRef) (hist : HistoryRecord) (pid : String) (i : Nat)
    (hp : (probeLoop env.probeOk 0 120).1 = true)
    (hq : queue_prompt env.queueResp = .ok pid)
    (hw : wait_for_execution pid env.wsMsgs = some i)
    (hh : env.history pid = some hist)
    (hout : hist.outputs = [⟨some [r]⟩])
    (hcopy : env.get_image r.filename r.subfolder r.ftype =
       fsLookup (saveImages fs0 [⟨nm, s⟩]).1 (savePath nm)) :
    (handler env fs0 ⟨w, some [⟨nm, s⟩]⟩).result =
      .images [⟨r.filename, b64encodeStr (b64decodeStr s)⟩] ∧
    b64decodeStr (b64encodeStr (b64decodeStr s)) = b64decodeStr s := by
  have hlook : fsLookup (saveImages fs0 [⟨nm, s⟩]).1 (savePath nm) =
      some (b64decodeStr s) := by
    rw [saveImages_lookup]
    simp [List.find?]
  have hfetch : env.get_image r.filename r.subfolder r.ftype =
      some (b64decodeStr s) := by
    rw [hcopy, hlook]
  constructor
  · rw [handler_run env fs0 ⟨w, some [⟨nm, s⟩]⟩ pid i hist hp hq hw hh, hout]
    have hok := collectNodes_ok env.get_image [⟨some [r]⟩]
      (by
        intro x hx
        simp [allRefs] at hx
        subst hx
        simp [hfetch])
    simp only [hok]
    simp [allRefs, hfetch]
  · exact b64decodeStr_b64encodeStr (b64decodeStr s) (b64decodeStr_lt s)

def histC9 : HistoryRecord := ⟨[⟨some [⟨"out.png", "", "output"⟩]⟩]⟩

def envC9 : Env where
  clientId := "cid"
  probeOk := fun _ => true
  queueResp := ⟨some "p"⟩
  wsMsgs := [.text "executing" none "p"]
  history := fun _ => some histC9
  get_image := fun _ _ _ => fsLookup (saveImages [] [⟨"in.png", "AA=="⟩]).1 (savePath "in.png")

theorem c9_witness :
    (handler envC9 [] ⟨0, some [⟨"in.png", "AA=="⟩]⟩).result =
      .images [⟨"out.png", b64encodeStr (b64decodeStr "AA==")⟩] ∧
    b64decodeStr (b64encodeStr (b64decodeStr "AA==")) = b64decodeStr "AA==" :=
  c9_payload_roundtrip envC9 [] 0 "in.png" "AA==" ⟨"out.png", "", "output"⟩
    histC9 "p" 0 rfl rfl rfl rfl rfl rfl

/-- C10 (implicit): the persistence path of an input image is exactly
`os.path.join("/input", name)` with the caller-supplied name used verbatim —
no validation or sanitization — so a name with `..` components resolves to
(and the write lands on) a location outside the input directory:
`"../../etc/passwd"` is persisted at `"/input/../../etc/passwd"`, which
resolves to `/etc/passwd`, not under `/input`. -/
theorem c10_unsanitized_save_path :
    (∀ (env : Env) (fs0 : Fs) (w : Nat) (nm s : String),
      ((handler env fs0 ⟨w, some [⟨nm, s⟩]⟩).trace).head? =
        some (.saveImage (osPathJoin "/input" nm) (b64decodeStr s))) ∧
    osPathJoin "/input" "../../etc/passwd" = "/input/../../etc/passwd" ∧
    resolveAbs "/input/../../etc/passwd" = resolveAbs "/etc/passwd" ∧
    pathUnder "/input" "/input/../../etc/passwd" = false := by
  refine ⟨?_, by decide, by decide, by decide⟩
  intro env fs0 w nm s
  rcases handler_trace_shape env fs0 ⟨w, some [⟨nm, s⟩]⟩ with ⟨rest, htr, _, _⟩
  rw [htr]
  rfl
